import Mathlib

/-!
Verification of the `regulus` loudness-measurement pipeline (ITU-R BS.1770).

This file shallowly embeds the measurement pipeline of the repository:
the mean-square accumulator (`src/mean_sq.rs`), the gated mean-square
windower (`src/gating.rs`), the sample-peak tracker (`src/peak.rs`), the
two-stage K-weighting biquad filter (`src/filter.rs`), the gated loudness
aggregator (`src/gated_loudness/`), and the layered pipeline with its
builder (`src/pipeline.rs`).

Sample values (`f64` in the source) are embedded as exact rationals `ℚ`
for the windowing/statistics subsystem, and as reals `ℝ` where the
loudness formula (a base-10 logarithm) is involved.  A frame is a
function `Fin 5 → ℚ` (or `→ ℝ`), matching `MAX_CHANNELS = 5`.
-/

namespace Regulus

/-- A multichannel sample frame: `[f64; MAX_CHANNELS]` with `MAX_CHANNELS = 5`. -/
abbrev QFrame : Type := Fin 5 → ℚ

namespace Util

/-- `Util::ms_to_samples` (src/util.rs lines 82-87): number of samples in
`ms` milliseconds at `rate` Hz, rounded half-up to the nearest sample. -/
def msToSamples (ms rate : ℕ) : ℕ :=
  ms * rate / 1000 + (if ms * rate % 1000 ≥ 500 then 1 else 0)

end Util

/-- Per-channel sum of squares of a list of frames (the accumulation loop of
`MeanSquare::add_samples`, src/mean_sq.rs lines 31-36). -/
def sumSq (samples : List QFrame) (c : Fin 5) : ℚ :=
  (samples.map fun s => s c * s c).sum

/-- `MeanSquare` (src/mean_sq.rs): running per-channel mean of squares. -/
structure MeanSquare where
  curr : QFrame
  num : ℕ

/-- `MeanSquare::new`: zero mean, zero count. -/
def MeanSquare.new : MeanSquare := ⟨fun _ => 0, 0⟩

/-- `MeanSquare::add_samples` (src/mean_sq.rs lines 24-59): bail out on an
empty slice; on the first batch store the plain average of the squares; on
later batches fold the batch into a running incremental average. -/
def MeanSquare.addSamples (st : MeanSquare) (samples : List QFrame) : MeanSquare :=
  let m := samples.length
  if m = 0 then st
  else if st.num = 0 then ⟨fun c => sumSq samples c / (m : ℚ), m⟩
  else ⟨fun c => ((st.num : ℚ) * st.curr c + sumSq samples c) / ((st.num : ℚ) + (m : ℚ)),
        st.num + m⟩

lemma sumSq_append (l b : List QFrame) (c : Fin 5) :
    sumSq (l ++ b) c = sumSq l c + sumSq b c := by
  simp [sumSq]

/-- The state invariant of `MeanSquare`: count equals the number of samples
seen, and the current value is their exact mean of squares. -/
def MeanSquare.Tracks (st : MeanSquare) (l : List QFrame) : Prop :=
  st.num = l.length ∧ ∀ c, st.curr c = if l = [] then 0 else sumSq l c / (l.length : ℚ)

lemma MeanSquare.new_tracks : MeanSquare.Tracks MeanSquare.new [] := by
  refine ⟨rfl, fun c => ?_⟩
  simp [MeanSquare.new]

lemma MeanSquare.addSamples_tracks {st : MeanSquare} {l : List QFrame}
    (h : st.Tracks l) (b : List QFrame) : (st.addSamples b).Tracks (l ++ b) := by
  obtain ⟨hn, hc⟩ := h
  rcases eq_or_ne b [] with hb | hb
  · subst hb
    simpa [MeanSquare.addSamples] using ⟨hn, hc⟩
  · have hbl : b.length ≠ 0 := by simpa [List.length_eq_zero] using hb
    rcases eq_or_ne l [] with hl | hl
    · subst hl
      have hn0 : st.num = 0 := by simpa using hn
      constructor
      · simp [MeanSquare.addSamples, hbl, hn0]
      · intro c
        simp [MeanSquare.addSamples, hbl, hn0, hb]
    · have hll : l.length ≠ 0 := by simpa [List.length_eq_zero] using hl
      have hn0 : st.num ≠ 0 := by simpa [hn] using hll
      constructor
      · simp [MeanSquare.addSamples, hbl, hn0, hn, hl]
      · intro c
        have hcurr : st.curr c = sumSq l c / (l.length : ℚ) := by
          simpa [hl] using hc c
        have hlQ : (l.length : ℚ) ≠ 0 := by exact_mod_cast hll
        have happ : l ++ b ≠ [] := by simp [hl]
        simp only [MeanSquare.addSamples, if_neg hbl, if_neg hn0, hn, hcurr,
          if_neg hll, sumSq_append, if_neg happ, List.length_append]
        have hmul : (l.length : ℚ) * (sumSq l c / (l.length : ℚ)) = sumSq l c := by
          field_simp
        push_cast
        rw [hmul]

lemma MeanSquare.foldl_addSamples_tracks (batches : List (List QFrame)) :
    ∀ (st : MeanSquare) (l : List QFrame), st.Tracks l →
      (batches.foldl MeanSquare.addSamples st).Tracks (l ++ batches.flatten) := by
  induction batches with
  | nil => intro st l h; simpa using h
  | cons b bs ih =>
      intro st l h
      have h' := MeanSquare.addSamples_tracks h b
      have := ih (st.addSamples b) (l ++ b) h'
      simpa [List.append_assoc] using this

/-- C10.  After any sequence of `add_samples` calls on a fresh `MeanSquare`,
`num_samples()` equals the total number of samples added, and for each channel
`mean_sqs()` is the exact arithmetic mean of the squares of all samples added
so far (zero if none were added); adding an empty slice changes nothing. -/
theorem c10_mean_square_invariant (batches : List (List QFrame)) (c : Fin 5) :
    (batches.foldl MeanSquare.addSamples MeanSquare.new).num = batches.flatten.length
    ∧ (batches.foldl MeanSquare.addSamples MeanSquare.new).curr c
        = (if batches.flatten = [] then 0
           else sumSq batches.flatten c / (batches.flatten.length : ℚ))
    ∧ (∀ st : MeanSquare, st.addSamples [] = st) := by
  have h := MeanSquare.foldl_addSamples_tracks batches MeanSquare.new [] MeanSquare.new_tracks
  rw [List.nil_append] at h
  exact ⟨h.1, h.2 c, fun st => by simp [MeanSquare.addSamples]⟩

/-- The last `gate` elements of a list: the contents of a ring buffer of
capacity `gate` once the list's elements have all been pushed through it. -/
def ringWindow (gate : ℕ) (l : List QFrame) : List QFrame :=
  l.drop (l.length - gate)

/-- One ring-buffer insertion of `GatedMeanSquareIter::next` (src/gating.rs
lines 67-71): pop from the front while the buffer is at capacity `gate`,
then push the new sample at the back. -/
def ringPush (gate : ℕ) (ring : List QFrame) (s : QFrame) : List QFrame :=
  ring.drop (ring.length + 1 - gate) ++ [s]

/-- The ring-buffer insertions for one batch of consumed samples. -/
def ringPushAll (gate : ℕ) (ring : List QFrame) (batch : List QFrame) : List QFrame :=
  batch.foldl (ringPush gate) ring

/-- The mean-square frame of the current ring buffer: a fresh `MeanSquare`
fed the whole ring, as in src/gating.rs lines 52 and 77-79. -/
def meanSqFrame (ring : List QFrame) : QFrame :=
  (MeanSquare.new.addSamples ring).curr

lemma meanSqFrame_eq (ring : List QFrame) (c : Fin 5) :
    meanSqFrame ring c = if ring = [] then 0 else sumSq ring c / (ring.length : ℚ) := by
  have h := MeanSquare.addSamples_tracks MeanSquare.new_tracks ring
  rw [List.nil_append] at h
  exact h.2 c

lemma ringWindow_length (gate : ℕ) (l : List QFrame) :
    (ringWindow gate l).length = min gate l.length := by
  simp only [ringWindow, List.length_drop]
  omega

lemma ringWindow_of_le {gate : ℕ} {l : List QFrame} (h : l.length ≤ gate) :
    ringWindow gate l = l := by
  simp [ringWindow, Nat.sub_eq_zero_of_le h]

lemma ringPush_window {gate : ℕ} (hg : 0 < gate) {ring : List QFrame} (s : QFrame) :
    ringPush gate ring s = ringWindow gate (ring ++ [s]) := by
  unfold ringPush ringWindow
  have hle : ring.length + 1 - gate ≤ ring.length := by omega
  rw [List.length_append, List.length_singleton, List.drop_append_of_le_length hle]

lemma ringWindow_append_window (gate : ℕ) (l x : List QFrame) :
    ringWindow gate (ringWindow gate l ++ x) = ringWindow gate (l ++ x) := by
  rcases le_or_lt l.length gate with h | h
  · rw [ringWindow_of_le h]
  · have hw : (ringWindow gate l).length = gate := by
      rw [ringWindow_length]; omega
    show (ringWindow gate l ++ x).drop ((ringWindow gate l ++ x).length - gate)
        = (l ++ x).drop ((l ++ x).length - gate)
    rw [List.length_append, List.length_append, hw]
    rcases le_or_lt x.length gate with hx | hx
    · have h1 : gate + x.length - gate ≤ (ringWindow gate l).length := by omega
      have h2 : l.length + x.length - gate ≤ l.length := by omega
      rw [List.drop_append_of_le_length h1, List.drop_append_of_le_length h2]
      show (l.drop (l.length - gate)).drop (gate + x.length - gate) ++ x = _
      rw [List.drop_drop]
      congr 2
      omega
    · have h1 : gate + x.length - gate = (ringWindow gate l).length + (x.length - gate) := by
        omega
      have h2 : l.length + x.length - gate = l.length + (x.length - gate) := by omega
      rw [h1, h2, List.drop_append, List.drop_append]

lemma ringPushAll_window {gate : ℕ} (hg : 0 < gate) :
    ∀ (batch ring : List QFrame), ring.length ≤ gate →
      ringPushAll gate ring batch = ringWindow gate (ring ++ batch) := by
  intro batch
  induction batch with
  | nil =>
      intro ring h
      simpa [ringPushAll] using (ringWindow_of_le h).symm
  | cons s bs ih =>
      intro ring h
      have hstep : ringPush gate ring s = ringWindow gate (ring ++ [s]) :=
        ringPush_window hg s
      have hlen : (ringPush gate ring s).length ≤ gate := by
        rw [hstep, ringWindow_length]; omega
      calc ringPushAll gate ring (s :: bs)
          = ringPushAll gate (ringPush gate ring s) bs := rfl
        _ = ringWindow gate (ringPush gate ring s ++ bs) := ih _ hlen
        _ = ringWindow gate (ringWindow gate (ring ++ [s]) ++ bs) := by rw [hstep]
        _ = ringWindow gate ((ring ++ [s]) ++ bs) := ringWindow_append_window _ _ _
        _ = ringWindow gate (ring ++ s :: bs) := by simp

/-- The run of `GatedMeanSquareIter::next` calls over a finite source
(src/gating.rs lines 51-84).  Each call takes a full gate of samples on the
first iteration and a delta's worth afterwards, cycles them through the ring
buffer, and emits the mean square of the ring; iteration ends when the source
runs dry mid-take.  `fuel` bounds the number of calls; when `delta > 0` the
fuel provided by `gmsEmissions` is never the reason iteration stops. -/
def gmsRun (gate delta : ℕ) : ℕ → List QFrame → List QFrame → Bool → List QFrame
  | 0, _, _, _ => []
  | fuel + 1, remaining, ring, first =>
      let k := cond first gate delta
      if k ≤ remaining.length then
        let ring' := ringPushAll gate ring (remaining.take k)
        meanSqFrame ring' :: gmsRun gate delta fuel (remaining.drop k) ring' false
      else []

/-- All power frames the gated mean-square windower emits over a finite
stream, with `gate` and `delta` in frames. -/
def gmsEmissions (gate delta : ℕ) (stream : List QFrame) : List QFrame :=
  gmsRun gate delta (stream.length + 1) stream [] true

lemma gmsRun_char {gate delta : ℕ} (hg : 0 < gate) (hd : 0 < delta) :
    ∀ (fuel : ℕ) (rem ring : List QFrame), rem.length < fuel → ring.length = gate →
      gmsRun gate delta fuel rem ring false
        = (List.range (rem.length / delta)).map
            (fun j => meanSqFrame (ringWindow gate (ring ++ rem.take ((j + 1) * delta)))) := by
  intro fuel
  induction fuel with
  | zero => intro rem ring hfuel _; omega
  | succ fuel ih =>
      intro rem ring hfuel hring
      rcases lt_or_le rem.length delta with hlt | hle
      · rw [Nat.div_eq_of_lt hlt]
        simp only [gmsRun, cond_false, if_neg (by omega : ¬ delta ≤ rem.length),
          List.range_zero, List.map_nil]
      · have hpush : ringPushAll gate ring (rem.take delta)
            = ringWindow gate (ring ++ rem.take delta) :=
          ringPushAll_window hg _ _ (le_of_eq hring)
        have hring' : (ringPushAll gate ring (rem.take delta)).length = gate := by
          rw [hpush, ringWindow_length, List.length_append, List.length_take]
          omega
        have hdiv : rem.length / delta = (rem.length - delta) / delta + 1 :=
          Nat.div_eq_sub_div hd hle
        have hfuel' : (rem.drop delta).length < fuel := by
          rw [List.length_drop]; omega
        have htail := ih (rem.drop delta) (ringPushAll gate ring (rem.take delta))
          hfuel' hring'
        rw [List.length_drop] at htail
        simp only [gmsRun, cond_false, if_pos hle]
        rw [htail, hdiv, List.range_succ_eq_map, List.map_cons, List.map_map]
        have h01 : (0 + 1) * delta = delta := by ring
        congr 1
        · rw [h01, hpush]
        · apply List.map_congr_left
          intro j _
          simp only [Function.comp_apply]
          rw [hpush, ringWindow_append_window, List.append_assoc, ← List.take_add]
          have hidx : delta + (j + 1) * delta = (Nat.succ j + 1) * delta := by
            simp only [Nat.succ_eq_add_one]
            ring
          rw [hidx]

lemma gmsEmissions_char {gate delta : ℕ} (hg : 0 < gate) (hd : 0 < delta)
    (stream : List QFrame) :
    gmsEmissions gate delta stream
      = if gate ≤ stream.length then
          (List.range ((stream.length - gate) / delta + 1)).map
            (fun i => meanSqFrame (ringWindow gate (stream.take (gate + i * delta))))
        else [] := by
  rcases le_or_lt gate stream.length with h | h
  · have htake : ringPushAll gate [] (stream.take gate)
        = ringWindow gate (stream.take gate) := by
      rw [ringPushAll_window hg _ _ (by simp), List.nil_append]
    have hwin : ringWindow gate (stream.take gate) = stream.take gate :=
      ringWindow_of_le (by simp)
    have hring : (ringPushAll gate [] (stream.take gate)).length = gate := by
      rw [htake, hwin, List.length_take]; omega
    have hfuel : (stream.drop gate).length < stream.length := by
      rw [List.length_drop]; omega
    have htail := gmsRun_char hg hd stream.length (stream.drop gate)
      (ringPushAll gate [] (stream.take gate)) hfuel hring
    rw [List.length_drop] at htail
    unfold gmsEmissions
    simp only [gmsRun, cond_true, if_pos h]
    rw [htail, List.range_succ_eq_map, List.map_cons, List.map_map]
    have h0 : gate + 0 * delta = gate := by ring
    congr 1
    · rw [h0, htake, hwin]
    · apply List.map_congr_left
      intro j _
      simp only [Function.comp_apply]
      rw [htake, ringWindow_append_window, ← List.take_add]
  · unfold gmsEmissions
    simp only [gmsRun, cond_true, if_neg (by omega : ¬ gate ≤ stream.length)]

/-- C5.  For every finite input stream of `n` frames, the number of power
frames emitted by the gated power windower equals `(n - gate_frames) / delta_frames + 1`
when `n ≥ gate_frames` and `0` otherwise, where `gate_frames` and `delta_frames`
are the rounded frame counts of the gating's millisecond lengths. -/
theorem c5_emission_count (gateLenMs deltaLenMs rate gate delta : ℕ)
    (stream : List QFrame)
    (hgate : gate = Util.msToSamples gateLenMs rate)
    (hdelta : delta = Util.msToSamples deltaLenMs rate)
    (hg : 0 < gate) (hd : 0 < delta) :
    (gmsEmissions gate delta stream).length
      = if gate ≤ stream.length then (stream.length - gate) / delta + 1 else 0 := by
  rw [gmsEmissions_char hg hd]
  rcases le_or_lt gate stream.length with h | h
  · rw [if_pos h, if_pos h, List.length_map, List.length_range]
  · rw [if_neg (by omega), if_neg (by omega)]
    rfl

/-- The stream used to witness C5: seven constant frames at 5 Hz with the
momentary gating, giving `gate_frames = 2` and `delta_frames = 1`. -/
def c5Stream : List QFrame := List.replicate 7 (fun _ => 1)

theorem c5_emission_count_witness :
    (gmsEmissions 2 1 c5Stream).length
      = if 2 ≤ c5Stream.length then (c5Stream.length - 2) / 1 + 1 else 0 :=
  c5_emission_count 400 100 5 2 1 c5Stream (by decide) (by decide)
    (by decide) (by decide)

/-- C4.  The `i`-th power frame emitted by the gated power windower equals,
per channel, the arithmetic mean of the element-wise squares of the most
recent `gate_frames` input frames (the last `gate_frames` of the first
`gate_frames + i * delta_frames` frames of the stream), where `gate_frames`
and `delta_frames` are the rounded frame counts of the gating's millisecond
lengths. -/
theorem c4_emission_window_mean (gateLenMs deltaLenMs rate gate delta : ℕ)
    (stream : List QFrame) (i : ℕ) (c : Fin 5)
    (hgate : gate = Util.msToSamples gateLenMs rate)
    (hdelta : delta = Util.msToSamples deltaLenMs rate)
    (hg : 0 < gate) (hd : 0 < delta)
    (hi : i < (gmsEmissions gate delta stream).length) :
    (gmsEmissions gate delta stream).getD i (fun _ => 0) c
      = sumSq ((stream.take (gate + i * delta)).drop (i * delta)) c / (gate : ℚ) := by
  rw [gmsEmissions_char hg hd] at hi ⊢
  rcases le_or_lt gate stream.length with h | h
  · rw [if_pos h] at hi ⊢
    rw [List.length_map, List.length_range] at hi
    have hidelta : i * delta ≤ stream.length - gate := by
      have hle : i ≤ (stream.length - gate) / delta := by omega
      exact (Nat.le_div_iff_mul_le hd).1 hle
    have hilen : i < ((List.range ((stream.length - gate) / delta + 1)).map
        (fun i => meanSqFrame (ringWindow gate (stream.take (gate + i * delta))))).length := by
      rw [List.length_map, List.length_range]
      omega
    rw [List.getD_eq_getElem _ _ hilen]
    simp only [List.getElem_map, List.getElem_range]
    have hlen : (stream.take (gate + i * delta)).length = gate + i * delta := by
      rw [List.length_take]
      omega
    have hwin : ringWindow gate (stream.take (gate + i * delta))
        = (stream.take (gate + i * delta)).drop (i * delta) := by
      unfold ringWindow
      rw [hlen]
      congr 1
      omega
    have hlen2 : ((stream.take (gate + i * delta)).drop (i * delta)).length = gate := by
      rw [List.length_drop, hlen]
      omega
    have hne : (stream.take (gate + i * delta)).drop (i * delta) ≠ [] := by
      intro hEq
      rw [hEq] at hlen2
      simp at hlen2
      omega
    rw [hwin, meanSqFrame_eq, if_neg hne, hlen2]
  · rw [if_neg (by omega)] at hi
    simp at hi

/-- The stream used to witness C4: three frames at 5 Hz with the momentary
gating, giving `gate_frames = 2` and `delta_frames = 1`. -/
def c4Stream : List QFrame := [fun _ => 1, fun _ => 2, fun _ => 3]

theorem c4_emission_window_mean_witness :
    (gmsEmissions 2 1 c4Stream).getD 1 (fun _ => 0) 0
      = sumSq ((c4Stream.take (2 + 1 * 1)).drop (1 * 1)) 0 / ((2 : ℕ) : ℚ) :=
  c4_emission_window_mean 400 100 5 2 1 c4Stream 1 0 (by decide) (by decide)
    (by decide) (by decide) (by decide)

/-- One step of `SamplePeakIter::next` on the peak state (src/peak.rs
lines 31-41): each channel becomes the larger of itself and the sample's
absolute value. -/
def samplePeakStep (peak : QFrame) (s : QFrame) : QFrame :=
  fun c => max (peak c) |s c|

/-- Driving `SamplePeakIter` over a finite stream: the final per-channel
peak state together with the passed-through samples. -/
def samplePeakRun (peak : QFrame) : List QFrame → QFrame × List QFrame
  | [] => (peak, [])
  | s :: rest =>
      let next := samplePeakRun (samplePeakStep peak s) rest
      (next.1, s :: next.2)

/-- `SamplePeakIter::new` (src/peak.rs lines 17-23): the all-zero peak frame. -/
def samplePeakInit : QFrame := fun _ => 0

lemma samplePeakRun_fst (stream : List QFrame) :
    ∀ (peak : QFrame) (c : Fin 5),
      (samplePeakRun peak stream).1 c = (stream.map fun s => |s c|).foldl max (peak c) := by
  induction stream with
  | nil => intro peak c; rfl
  | cons s rest ih =>
      intro peak c
      simp only [samplePeakRun, List.map_cons, List.foldl_cons]
      exact ih (samplePeakStep peak s) c

/-- C9.  The peak tracker returns each input frame unchanged, and after
processing any stream its per-channel peak equals the maximum of the
absolute values of that channel's samples seen so far, starting from zero. -/
theorem c9_sample_peak (stream : List QFrame) (peak : QFrame) (c : Fin 5) :
    (samplePeakRun peak stream).2 = stream
    ∧ (samplePeakRun samplePeakInit stream).1 c
        = (stream.map fun s => |s c|).foldl max 0 := by
  constructor
  · induction stream generalizing peak with
    | nil => rfl
    | cons s rest ih => simp only [samplePeakRun, ih]
  · exact samplePeakRun_fst stream samplePeakInit c

/-- Coefficients of one biquad stage (`Biquad`, src/filter.rs lines 10-17);
`a0` is normalized to 1 and not stored. -/
structure Biquad where
  a1 : ℚ
  a2 : ℚ
  b0 : ℚ
  b1 : ℚ
  b2 : ℚ
deriving DecidableEq

/-- `Biquad::new` for `Kind::A` (src/filter.rs lines 20-53), parametrized by
the transcendental intermediates the source computes with `tan` and `powf`:
`k = tan(π * f0 / sample_rate)` with `f0 = 1681.974450955533`,
`vh = 10 ^ (g / 20)` with `g = 3.999843853973347`, and
`vb = vh ^ 0.4996667741545416`.  All remaining arithmetic is exact and uses
the quality factor `q = 0.7071752369554196` of the shelving stage. -/
def Biquad.mkA (k vh vb : ℚ) : Biquad :=
  let q : ℚ := 0.7071752369554196
  let a0 := 1 + k / q + k * k
  { a1 := 2 * (k * k - 1) / a0
    a2 := (1 - k / q + k * k) / a0
    b0 := (vh + vb * k / q + k * k) / a0
    b1 := 2 * (k * k - vh) / a0
    b2 := (vh - vb * k / q + k * k) / a0 }

/-- `Biquad::new` for `Kind::B` (src/filter.rs lines 20-53), parametrized by
`k = tan(π * f0 / sample_rate)` with `f0 = 38.13547087602444`; the numerator
coefficients are the constants `(1, -2, 1)` and the quality factor is
`q = 0.5003270373238773`. -/
def Biquad.mkB (k : ℚ) : Biquad :=
  let q : ℚ := 0.5003270373238773
  let a0 := 1 + k / q + k * k
  { a1 := 2 * (k * k - 1) / a0
    a2 := (1 - k / q + k * k) / a0
    b0 := 1
    b1 := -2
    b2 := 1 }

namespace Util

/-- `DEN_THRESHOLD` (src/util.rs line 6): `1.0e-15`. -/
def denThreshold : ℚ := 1 / 10 ^ 15

/-- `Util::den` (src/util.rs lines 35-38): flush values below the denormal
threshold to zero. -/
def den (x : ℚ) : ℚ := if |x| < denThreshold then 0 else x

end Util

/-- The denormal flush of spec §4.1 applied to every coefficient.  This is a
spec-side definition for comparison: `Biquad::new` in the source returns the
raw arithmetic results and never calls `Util::den`. -/
def Biquad.flushed (bq : Biquad) : Biquad :=
  ⟨Util.den bq.a1, Util.den bq.a2, Util.den bq.b0, Util.den bq.b1, Util.den bq.b2⟩

lemma mkA_a1_value :
    (Biquad.mkA (1 + 1 / 10 ^ 17) 1 1).a1
      = 235725078985139867845292061592366 / 20119587282590326867862539492569933922646030796183 := by
  simp only [Biquad.mkA]
  norm_num

lemma mkA_a1_pos : 0 < (Biquad.mkA (1 + 1 / 10 ^ 17) 1 1).a1 := by
  rw [mkA_a1_value]
  norm_num

lemma mkA_a1_lt : |(Biquad.mkA (1 + 1 / 10 ^ 17) 1 1).a1| < Util.denThreshold := by
  rw [abs_of_pos mkA_a1_pos, mkA_a1_value, Util.denThreshold]
  norm_num

lemma mkA_flushed_ne :
    (Biquad.mkA (1 + 1 / 10 ^ 17) 1 1).flushed ≠ Biquad.mkA (1 + 1 / 10 ^ 17) 1 1 := by
  intro h
  have ha1 := congrArg Biquad.a1 h
  have hfl : (Biquad.mkA (1 + 1 / 10 ^ 17) 1 1).flushed.a1 = 0 := by
    show Util.den _ = 0
    simp only [Util.den]
    rw [if_pos mkA_a1_lt]
  rw [hfl] at ha1
  exact absurd ha1.symm (ne_of_gt mkA_a1_pos)

/-- C6 counterexample.  At `k = 1 + 10⁻¹⁷` (a value of `tan(π·f0/fs)` at which
`k²` is barely above 1) the `a1` coefficient of stage A lies strictly between
0 and the denormal threshold, so the constructed biquad is not fixed by the
flush: `Biquad::new` does not replace coefficients below `1e-15` with 0. -/
theorem c6_denormal_flush_counterexample :
    (Biquad.mkA (1 + 1 / 10 ^ 17) 1 1).flushed ≠ Biquad.mkA (1 + 1 / 10 ^ 17) 1 1
    ∧ |(Biquad.mkA (1 + 1 / 10 ^ 17) 1 1).a1| < Util.denThreshold
    ∧ (Biquad.mkA (1 + 1 / 10 ^ 17) 1 1).a1 ≠ 0 :=
  ⟨mkA_flushed_ne, mkA_a1_lt, ne_of_gt mkA_a1_pos⟩

/-- C6 (amended).  `Util::den` implements the flush — it maps every value with
absolute value below `1e-15` to zero and leaves every other value unchanged —
but `Biquad::new` does not apply it: there is a coefficient input at which the
raw `a1` of stage A is nonzero yet below the threshold, so the constructed
coefficients differ from their flushed image. -/
theorem c6_den_flush_not_applied :
    (∀ x : ℚ, |x| < Util.denThreshold → Util.den x = 0)
    ∧ (∀ x : ℚ, Util.denThreshold ≤ |x| → Util.den x = x)
    ∧ (Biquad.mkA (1 + 1 / 10 ^ 17) 1 1).flushed ≠ Biquad.mkA (1 + 1 / 10 ^ 17) 1 1 :=
  ⟨fun _ hx => if_pos hx, fun _ hx => if_neg (not_lt.2 hx), mkA_flushed_ne⟩

/-- `Applicator` (src/filter.rs lines 78-83): one biquad stage with its
per-channel state arrays `s1` and `s2`. -/
structure Applicator where
  biquad : Biquad
  s1 : QFrame
  s2 : QFrame

/-- A fresh applicator (src/filter.rs lines 86-92): given coefficients and
all-zero state. -/
def Applicator.init (bq : Biquad) : Applicator :=
  ⟨bq, fun _ => 0, fun _ => 0⟩

/-- `Applicator::apply` (src/filter.rs lines 94-108): one Direct Form II
transposed step per channel, returning the updated stage and the output
frame. -/
def Applicator.apply (a : Applicator) (input : QFrame) : Applicator × QFrame :=
  let out : QFrame := fun c => a.s1 c + a.biquad.b0 * input c
  (⟨a.biquad,
    fun c => a.s2 c + a.biquad.b1 * input c - a.biquad.a1 * out c,
    fun c => a.biquad.b2 * input c - a.biquad.a2 * out c⟩, out)

/-- `Filter` (src/filter.rs lines 113-118): the two-stage K-filter; the
sample-rate field only determines the coefficients and is dropped here. -/
structure Filter where
  passA : Applicator
  passB : Applicator

/-- `Filter::apply` (src/filter.rs lines 128-131): the output of stage A
feeds stage B. -/
def Filter.apply (f : Filter) (input : QFrame) : Filter × QFrame :=
  let ra := f.passA.apply input
  let rb := f.passB.apply ra.2
  (⟨ra.1, rb.1⟩, rb.2)

/-- Driving the two-stage filter over a finite stream of frames. -/
def Filter.run (f : Filter) : List QFrame → Filter × List QFrame
  | [] => (f, [])
  | x :: rest =>
      let r := f.apply x
      let next := Filter.run r.1 rest
      (next.1, r.2 :: next.2)

/-- A single channel of one biquad stage: the scalar shadow of `Applicator`
used to state that channels never share state. -/
structure ApplicatorS where
  biquad : Biquad
  s1 : ℚ
  s2 : ℚ

/-- The scalar Direct Form II transposed step on one channel. -/
def ApplicatorS.apply (a : ApplicatorS) (x : ℚ) : ApplicatorS × ℚ :=
  let out := a.s1 + a.biquad.b0 * x
  (⟨a.biquad, a.s2 + a.biquad.b1 * x - a.biquad.a1 * out,
    a.biquad.b2 * x - a.biquad.a2 * out⟩, out)

/-- A single channel of the two-stage filter. -/
structure FilterS where
  passA : ApplicatorS
  passB : ApplicatorS

def FilterS.apply (f : FilterS) (x : ℚ) : FilterS × ℚ :=
  let ra := f.passA.apply x
  let rb := f.passB.apply ra.2
  (⟨ra.1, rb.1⟩, rb.2)

def FilterS.run (f : FilterS) : List ℚ → FilterS × List ℚ
  | [] => (f, [])
  | x :: rest =>
      let r := f.apply x
      let next := FilterS.run r.1 rest
      (next.1, r.2 :: next.2)

/-- Restriction of a biquad stage to channel `c`. -/
def Applicator.chan (a : Applicator) (c : Fin 5) : ApplicatorS :=
  ⟨a.biquad, a.s1 c, a.s2 c⟩

/-- Restriction of the two-stage filter to channel `c`. -/
def Filter.chan (f : Filter) (c : Fin 5) : FilterS :=
  ⟨f.passA.chan c, f.passB.chan c⟩

lemma Applicator.apply_chan_stage (a : Applicator) (x : QFrame) (c : Fin 5) :
    ((a.apply x).1.chan c, (a.apply x).2 c) = (a.chan c).apply (x c) := rfl

lemma Filter.apply_chan_chain (f : Filter) (x : QFrame) (c : Fin 5) :
    ((f.apply x).1.chan c, (f.apply x).2 c) = (f.chan c).apply (x c) := rfl

lemma Filter.run_chan (xs : List QFrame) :
    ∀ (f : Filter) (c : Fin 5),
      (f.run xs).1.chan c = (FilterS.run (f.chan c) (xs.map fun fr => fr c)).1
      ∧ ((f.run xs).2.map fun fr => fr c)
          = (FilterS.run (f.chan c) (xs.map fun fr => fr c)).2 := by
  induction xs with
  | nil => intro f c; exact ⟨rfl, rfl⟩
  | cons x rest ih =>
      intro f c
      have hstep := Filter.apply_chan_chain f x c
      have h1 : (f.apply x).1.chan c = ((f.chan c).apply (x c)).1 :=
        congrArg Prod.fst hstep
      have h2 : (f.apply x).2 c = ((f.chan c).apply (x c)).2 :=
        congrArg Prod.snd hstep
      have ihr := ih (f.apply x).1 c
      constructor
      · show ((Filter.run (f.apply x).1 rest).1).chan c = _
        rw [ihr.1, h1]
        rfl
      · show (f.apply x).2 c :: ((Filter.run (f.apply x).1 rest).2.map fun fr => fr c) = _
        rw [ihr.2, h1, h2]
        rfl

/-- C7.  One application of a biquad stage produces, per channel,
`y = s1[c] + b0*x`, then updates `s1[c]` to `s2[c] + b1*x - a1*y` and
`s2[c]` to `b2*x - a2*y`, with coefficients untouched; a fresh stage has
`s1 = s2 = 0` on every channel; the output of stage A feeds stage B; every
input frame produces exactly one output frame; and channels never share
state: the per-channel trace of the filter equals the run of the scalar
single-channel filter on that channel's samples. -/
theorem c7_biquad_apply_contract :
    (∀ (a : Applicator) (x : QFrame) (c : Fin 5),
        (a.apply x).2 c = a.s1 c + a.biquad.b0 * x c
        ∧ (a.apply x).1.s1 c = a.s2 c + a.biquad.b1 * x c - a.biquad.a1 * ((a.apply x).2 c)
        ∧ (a.apply x).1.s2 c = a.biquad.b2 * x c - a.biquad.a2 * ((a.apply x).2 c)
        ∧ (a.apply x).1.biquad = a.biquad)
    ∧ (∀ (bq : Biquad) (c : Fin 5),
        (Applicator.init bq).s1 c = 0 ∧ (Applicator.init bq).s2 c = 0)
    ∧ (∀ (f : Filter) (x : QFrame),
        (f.apply x).2 = (f.passB.apply ((f.passA.apply x).2)).2)
    ∧ (∀ (f : Filter) (xs : List QFrame), ((f.run xs).2).length = xs.length)
    ∧ (∀ (f : Filter) (xs : List QFrame) (c : Fin 5),
        ((f.run xs).2.map fun fr => fr c)
          = (FilterS.run (f.chan c) (xs.map fun fr => fr c)).2) := by
  refine ⟨fun a x c => ⟨rfl, rfl, rfl, rfl⟩, fun bq c => ⟨rfl, rfl⟩, fun f x => rfl,
    fun f xs => ?_, fun f xs c => (Filter.run_chan xs f c).2⟩
  induction xs generalizing f with
  | nil => rfl
  | cons x rest ih => simpa [Filter.run] using ih (f.apply x).1

/-- A multichannel frame of real samples, used on the loudness path where the
source's `f64` values enter a base-10 logarithm. -/
abbrev RFrame : Type := Fin 5 → ℝ

namespace Util

/-- `Util::lufs` (src/util.rs lines 11-13): `-0.691 + 10 * x.log10()`. -/
noncomputable def lufs (x : ℝ) : ℝ := -0.691 + 10 * Real.logb 10 x

/-- `Util::loudness` (src/util.rs lines 20-28): weight the per-channel powers
and take the LUFS of their sum, yielding one scalar across all channels. -/
noncomputable def loudness (meanSq g : RFrame) : ℝ := lufs (∑ c, meanSq c * g c)

end Util

/-- Modelled from the spec: `sampara::stats::CumulativeMean` (the `sampara`
crate is an external dependency whose source is not in the repository).
Spec §4.3: "Running mean update rule (numerically stable incremental form):
`mean ← mean + (frame − mean)/new_count`"; a zero-count mean is the identity,
and an empty accumulator yields no current value. -/
structure CumulativeMean where
  count : ℕ
  mean : RFrame

/-- The zero-count accumulator (`CumulativeMean::default`). -/
noncomputable def CumulativeMean.empty : CumulativeMean := ⟨0, fun _ => 0⟩

/-- One `advance` step: the incremental mean update of spec §4.3. -/
noncomputable def CumulativeMean.advance (cm : CumulativeMean) (x : RFrame) :
    CumulativeMean :=
  ⟨cm.count + 1, fun c => cm.mean c + (x c - cm.mean c) / ((cm.count : ℝ) + 1)⟩

/-- `try_current`: the mean, unless no frame was seen. -/
def CumulativeMean.tryCurrent (cm : CumulativeMean) : Option RFrame :=
  if cm.count = 0 then none else some cm.mean

/-- Per-channel arithmetic mean of a list of frames (`0` when empty, since
real division by zero is zero). -/
noncomputable def listMean (l : List RFrame) : RFrame :=
  fun c => ((l.map fun p => p c).sum) / (l.length : ℝ)

/-- The accumulator state that results from exactly the frames of `l`. -/
def CumulativeMean.IsMeanOf (cm : CumulativeMean) (l : List RFrame) : Prop :=
  cm.count = l.length ∧ ∀ c, cm.mean c = listMean l c

lemma CumulativeMean.empty_isMeanOf : CumulativeMean.IsMeanOf CumulativeMean.empty [] := by
  refine ⟨rfl, fun c => ?_⟩
  simp [CumulativeMean.empty, listMean]

lemma CumulativeMean.advance_isMeanOf {cm : CumulativeMean} {l : List RFrame}
    (h : cm.IsMeanOf l) (x : RFrame) : (cm.advance x).IsMeanOf (l ++ [x]) := by
  obtain ⟨hn, hc⟩ := h
  refine ⟨by simp [CumulativeMean.advance, hn], fun c => ?_⟩
  have hmean : (cm.advance x).mean c
      = listMean l c + (x c - listMean l c) / ((l.length : ℝ) + 1) := by
    simp [CumulativeMean.advance, hn, hc c]
  rw [hmean]
  rcases eq_or_ne l.length 0 with h0 | h0
  · have hl : l = [] := List.length_eq_zero.1 h0
    subst hl
    simp [listMean]
  · have hlQ : (l.length : ℝ) ≠ 0 := by exact_mod_cast h0
    have hlQ1 : (l.length : ℝ) + 1 ≠ 0 := by positivity
    simp only [listMean, List.map_append, List.sum_append, List.map_cons,
      List.map_nil, List.sum_cons, List.sum_nil, List.length_append,
      List.length_cons, List.length_nil]
    push_cast
    field_simp
    ring

lemma CumulativeMean.foldl_isMeanOf (xs : List RFrame) :
    ∀ {cm : CumulativeMean} {l : List RFrame}, cm.IsMeanOf l →
      (xs.foldl CumulativeMean.advance cm).IsMeanOf (l ++ xs) := by
  induction xs with
  | nil => intro cm l h; simpa using h
  | cons x rest ih =>
      intro cm l h
      have := ih (CumulativeMean.advance_isMeanOf h x)
      simpa [List.append_assoc] using this

/-- `ABS_LOUDNESS_THRESH` (src/gated_loudness/loudness.rs line 6). -/
def absLoudnessThresh : ℝ := -70

/-- `Loudness` aggregator state (src/gated_loudness/loudness.rs lines 8-15). -/
structure Loudness where
  absAverager : CumulativeMean
  absLoudFrames : List (ℝ × RFrame)
  gWeights : RFrame

/-- `Loudness::new` (loudness.rs lines 21-27). -/
noncomputable def Loudness.new (g : RFrame) : Loudness :=
  ⟨CumulativeMean.empty, [], g⟩

open Classical in
/-- `Loudness::push` (loudness.rs lines 29-39): when the frame's loudness is
strictly above the absolute threshold, advance the running mean and save the
`(loudness, frame)` pair; otherwise discard the frame. -/
noncomputable def Loudness.push (st : Loudness) (gatedPowers : RFrame) : Loudness :=
  let frameLoudness := Util.loudness gatedPowers st.gWeights
  if frameLoudness > absLoudnessThresh then
    ⟨st.absAverager.advance gatedPowers,
     st.absLoudFrames ++ [(frameLoudness, gatedPowers)],
     st.gWeights⟩
  else st

open Classical in
/-- `Loudness::calculate` (loudness.rs lines 49-89): the loudness of the
running mean of retained frames sets the relative threshold 10 below itself;
the retained frames whose saved loudness exceeds it are averaged afresh and
the result's loudness is returned; either `try_current` failing yields no
result. -/
noncomputable def Loudness.calculate (st : Loudness) : Option ℝ :=
  match st.absAverager.tryCurrent with
  | none => none
  | some absAvgGatedPower =>
      let absLoudness := Util.loudness absAvgGatedPower st.gWeights
      let relLoudnessThresh := absLoudness - 10
      let relAverager := st.absLoudFrames.foldl
        (fun acc pr => if pr.1 > relLoudnessThresh then acc.advance pr.2 else acc)
        CumulativeMean.empty
      relAverager.tryCurrent.map fun m => Util.loudness m st.gWeights

open Classical in
/-- The retained frames of a stream: those whose loudness is strictly above
the absolute threshold of −70. -/
noncomputable def absLoudFilter (g : RFrame) (ps : List RFrame) : List RFrame :=
  ps.filter fun p => decide (Util.loudness p g > absLoudnessThresh)

open Classical in
/-- The integrated-loudness computation as the claim's sentences state it:
retain the frames with loudness above −70; if none, no result; otherwise
average them, set the relative threshold 10 below the loudness of that
average, keep the retained frames whose loudness exceeds it; if none, no
result; otherwise return the loudness of their arithmetic mean. -/
noncomputable def integratedSpec (g : RFrame) (ps : List RFrame) : Option ℝ :=
  let kept := absLoudFilter g ps
  if kept = [] then none
  else
    let relThresh := Util.loudness (listMean kept) g - 10
    let relKept := kept.filter fun p => decide (Util.loudness p g > relThresh)
    if relKept = [] then none
    else some (Util.loudness (listMean relKept) g)

/-- The invariant carried along `Loudness::push`: the saved pairs are exactly
the retained frames with their loudnesses, and the running mean tracks them. -/
def Loudness.Tracks (st : Loudness) (g : RFrame) (kept : List RFrame) : Prop :=
  st.gWeights = g
  ∧ st.absLoudFrames = kept.map (fun p => (Util.loudness p g, p))
  ∧ st.absAverager.IsMeanOf kept

open Classical in
lemma Loudness.push_tracks {st : Loudness} {g : RFrame} {kept : List RFrame}
    (h : st.Tracks g kept) (p : RFrame) :
    (st.push p).Tracks g
      (if Util.loudness p g > absLoudnessThresh then kept ++ [p] else kept) := by
  obtain ⟨hg, hf, hm⟩ := h
  by_cases hp : Util.loudness p g > absLoudnessThresh
  · rw [if_pos hp]
    refine ⟨?_, ?_, ?_⟩
    · simp [Loudness.push, hg, hp]
    · simp [Loudness.push, hg, hp, hf]
    · simp only [Loudness.push, hg, if_pos hp]
      exact CumulativeMean.advance_isMeanOf hm p
  · rw [if_neg hp]
    simp only [Loudness.push, hg, if_neg hp]
    exact ⟨hg, hf, hm⟩

open Classical in
lemma Loudness.foldl_push_tracks (ps : List RFrame) :
    ∀ {st : Loudness} {g : RFrame} {kept : List RFrame}, st.Tracks g kept →
      (ps.foldl Loudness.push st).Tracks g (kept ++ absLoudFilter g ps) := by
  induction ps with
  | nil => intro st g kept h; simpa [absLoudFilter] using h
  | cons p rest ih =>
      intro st g kept h
      have hstep := Loudness.push_tracks h p
      by_cases hp : Util.loudness p g > absLoudnessThresh
      · rw [if_pos hp] at hstep
        have := ih hstep
        simpa [absLoudFilter, List.filter_cons, hp, List.append_assoc] using this
      · rw [if_neg hp] at hstep
        have := ih hstep
        simpa [absLoudFilter, List.filter_cons, hp] using this

open Classical in
lemma relAverager_foldl (g : RFrame) (t : ℝ) (kept : List RFrame) :
    ∀ acc : CumulativeMean,
      ((kept.map fun p => (Util.loudness p g, p)).foldl
        (fun acc pr => if pr.1 > t then acc.advance pr.2 else acc) acc)
      = (kept.filter fun p => decide (Util.loudness p g > t)).foldl
          CumulativeMean.advance acc := by
  induction kept with
  | nil => intro acc; rfl
  | cons p rest ih =>
      intro acc
      by_cases hp : Util.loudness p g > t
      · simp only [List.map_cons, List.foldl_cons, if_pos hp, List.filter_cons,
          decide_eq_true hp]
        exact ih _
      · simp only [List.map_cons, List.foldl_cons, if_neg hp, List.filter_cons,
          decide_eq_false hp]
        exact ih _

open Classical in
/-- C3.  A pushed power frame is retained (advanced into the running mean and
appended to the saved pairs) exactly when its loudness is strictly above −70,
and `calculate` returns exactly what the claim's two-pass description
computes: `none` when the retained set or the relatively-loud subset is
empty, and otherwise the loudness of the arithmetic mean of the retained
frames whose saved loudness strictly exceeds `L_abs − 10`. -/
theorem c3_two_pass_gated_loudness (g : RFrame) (ps : List RFrame) :
    (ps.foldl Loudness.push (Loudness.new g)).absLoudFrames
      = (absLoudFilter g ps).map (fun p => (Util.loudness p g, p))
    ∧ (ps.foldl Loudness.push (Loudness.new g)).absAverager.count
      = (absLoudFilter g ps).length
    ∧ (ps.foldl Loudness.push (Loudness.new g)).calculate = integratedSpec g ps := by
  have hnew : (Loudness.new g).Tracks g [] :=
    ⟨rfl, rfl, CumulativeMean.empty_isMeanOf⟩
  have h := Loudness.foldl_push_tracks ps hnew
  rw [List.nil_append] at h
  obtain ⟨hg, hf, hcount, hmean⟩ := h
  refine ⟨hf, hcount, ?_⟩
  rcases eq_or_ne (absLoudFilter g ps) [] with hk | hk
  · have hc0 : (ps.foldl Loudness.push (Loudness.new g)).absAverager.count = 0 := by
      rw [hcount, hk]
      rfl
    have htc : (ps.foldl Loudness.push (Loudness.new g)).absAverager.tryCurrent = none := by
      rw [CumulativeMean.tryCurrent, if_pos hc0]
    simp only [Loudness.calculate, htc, integratedSpec]
    rw [if_pos hk]
  · have hc0 : (ps.foldl Loudness.push (Loudness.new g)).absAverager.count ≠ 0 := by
      rw [hcount]
      simpa [List.length_eq_zero] using hk
    have hmeanfun : (ps.foldl Loudness.push (Loudness.new g)).absAverager.mean
        = listMean (absLoudFilter g ps) := funext hmean
    have htc : (ps.foldl Loudness.push (Loudness.new g)).absAverager.tryCurrent
        = some ((ps.foldl Loudness.push (Loudness.new g)).absAverager.mean) := by
      rw [CumulativeMean.tryCurrent, if_neg hc0]
    simp only [Loudness.calculate, htc, integratedSpec]
    rw [hmeanfun, hf, hg, relAverager_foldl, if_neg hk]
    have hrel := CumulativeMean.foldl_isMeanOf
      ((absLoudFilter g ps).filter fun p =>
        decide (Util.loudness p g > Util.loudness (listMean (absLoudFilter g ps)) g - 10))
      CumulativeMean.empty_isMeanOf
    rw [List.nil_append] at hrel
    rcases eq_or_ne ((absLoudFilter g ps).filter fun p =>
        decide (Util.loudness p g > Util.loudness (listMean (absLoudFilter g ps)) g - 10))
        [] with hr | hr
    · rw [CumulativeMean.tryCurrent, if_pos (by rw [hrel.1, hr]; rfl), if_pos hr]
      rfl
    · rw [CumulativeMean.tryCurrent,
        if_neg (by rw [hrel.1]; simpa [List.length_eq_zero] using hr), if_neg hr]
      have hrmean := funext hrel.2
      simp only [Option.map_some']
      rw [hrmean]

/-- `Gating` (src/gated_loudness/gating.rs lines 12-16): a gate length and a
delta length, both in milliseconds. -/
structure Gating where
  gateLenMs : ℕ
  deltaLenMs : ℕ
deriving DecidableEq

/-- `MOMENTARY_DELTA_MS` (gating.rs line 7). -/
def MOMENTARY_DELTA_MS : ℕ := 100

/-- `MOMENTARY_GATE_MS` (gating.rs line 8). -/
def MOMENTARY_GATE_MS : ℕ := 400

/-- `SHORTTERM_DELTA_MS` (gating.rs line 9). -/
def SHORTTERM_DELTA_MS : ℕ := 3000

/-- `SHORTTERM_GATE_MS` (gating.rs line 10). -/
def SHORTTERM_GATE_MS : ℕ := 1000

/-- `MOMENTARY_GATING` (gating.rs lines 18-21). -/
def MOMENTARY_GATING : Gating :=
  ⟨MOMENTARY_GATE_MS, MOMENTARY_DELTA_MS⟩

/-- `SHORTTERM_GATING` (gating.rs lines 22-25). -/
def SHORTTERM_GATING : Gating :=
  ⟨SHORTTERM_GATE_MS, SHORTTERM_DELTA_MS⟩

/-- Modelled from the spec: `sampara::stats::BufferedMovingMs` (the `sampara`
crate is an external dependency whose source is not in the repository).
Spec §3 "PowerWindow": a ring buffer of frames with a fixed capacity that
tracks its insertion count, becomes active once full and stays active; its
current value is the per-channel mean square over the buffered frames
(spec §4.2 "squared element-wise and accumulated into a running mean-square
over the last `gate_frames` samples"). -/
structure BufferedMovingMs where
  cap : ℕ
  buf : List RFrame
  inserted : ℕ

/-- A window of the given capacity holding no insertions yet
(`BufferedMovingMs::from(vec![Frame::EQUILIBRIUM; gate_buffer_len])`). -/
def BufferedMovingMs.ofCapacity (cap : ℕ) : BufferedMovingMs := ⟨cap, [], 0⟩

/-- Active exactly when the window has been filled. -/
def BufferedMovingMs.isActive (ms : BufferedMovingMs) : Bool :=
  decide (ms.cap ≤ ms.inserted)

/-- Insert one frame, cycling out the oldest when at capacity. -/
def BufferedMovingMs.advance (ms : BufferedMovingMs) (x : RFrame) : BufferedMovingMs :=
  ⟨ms.cap, (ms.buf ++ [x]).drop ((ms.buf.length + 1) - ms.cap), ms.inserted + 1⟩

/-- The mean square of the window, once active. -/
noncomputable def BufferedMovingMs.current (ms : BufferedMovingMs) : Option RFrame :=
  if ms.isActive then
    some (fun c => ((ms.buf.map fun f => f c * f c).sum) / (ms.buf.length : ℝ))
  else none

/-- `GatedPowers` (src/gated_loudness/gating.rs lines 27-35). -/
structure GatedPowers where
  msState : BufferedMovingMs
  i : ℕ
  delta : ℕ

/-- `usize::MAX`, the sentinel the source stores in `i` before the window
first becomes active. -/
def usizeMax : ℕ := 2 ^ 64 - 1

/-- `GatedPowers::custom` (gating.rs lines 42-63): derive the buffer length
and the per-step frame count from the gating; the `assert!(frames_per_delta > 0)`
panic is modelled as `none`. -/
def GatedPowers.custom (gating : Gating) (sampleRate : ℕ) : Option GatedPowers :=
  let gateBufferLen := Util.msToSamples gating.gateLenMs sampleRate
  let framesPerDelta := Util.msToSamples gating.deltaLenMs sampleRate
  if framesPerDelta = 0 then none
  else some ⟨BufferedMovingMs.ofCapacity gateBufferLen, usizeMax, framesPerDelta⟩

/-- `GatedPowers::momentary` (gating.rs lines 65-67). -/
def GatedPowers.momentary (sampleRate : ℕ) : Option GatedPowers :=
  GatedPowers.custom MOMENTARY_GATING sampleRate

/-- `GatedPowers::shortterm` (gating.rs lines 69-71). -/
def GatedPowers.shortterm (sampleRate : ℕ) : Option GatedPowers :=
  GatedPowers.custom SHORTTERM_GATING sampleRate

/-- `StatefulProcessor::advance` for `GatedPowers` (gating.rs lines 86-99):
advance the window; once it is active, reset the delta counter on the
activating frame and cycle it modulo `delta` afterwards. -/
def GatedPowers.advance (gp : GatedPowers) (input : RFrame) : GatedPowers :=
  let wasActive := gp.msState.isActive
  let msState := gp.msState.advance input
  let nowActive := msState.isActive
  let i := if nowActive then (if wasActive then (gp.i + 1) % gp.delta else 0) else gp.i
  ⟨msState, i, gp.delta⟩

/-- `current` for `GatedPowers` (gating.rs lines 101-109): output only when a
new delta is starting. -/
noncomputable def GatedPowers.currentOut (gp : GatedPowers) : Option RFrame :=
  if gp.i = 0 then gp.msState.current else none

/-- `Processor::process` for a stateful processor: advance on the input, then
read the current output (sampara's blanket implementation, as described by
the per-frame behavior of spec §4.2). -/
noncomputable def GatedPowers.process (gp : GatedPowers) (input : RFrame) :
    GatedPowers × Option RFrame :=
  let gp' := gp.advance input
  (gp', gp'.currentOut)

/-- `GatedLoudness` (src/gated_loudness/mod.rs lines 9-15). -/
structure GatedLoudness where
  gatedPowers : GatedPowers
  loudness : Loudness

/-- `GatedLoudness::new` (mod.rs lines 21-29), with the panic of the inner
`GatedPowers` constructor surfacing as `none`. -/
noncomputable def GatedLoudness.new (sampleRate : ℕ) (g : RFrame) (gating : Gating) :
    Option GatedLoudness :=
  (GatedPowers.custom gating sampleRate).map fun gp => ⟨gp, Loudness.new g⟩

/-- `GatedLoudness::momentary` (mod.rs lines 36-38). -/
noncomputable def GatedLoudness.momentary (sampleRate : ℕ) (g : RFrame) :
    Option GatedLoudness :=
  GatedLoudness.new sampleRate g MOMENTARY_GATING

/-- `GatedLoudness::shortterm` (mod.rs lines 40-42). -/
noncomputable def GatedLoudness.shortterm (sampleRate : ℕ) (g : RFrame) :
    Option GatedLoudness :=
  GatedLoudness.new sampleRate g SHORTTERM_GATING

/-- `Calculator::push` for `GatedLoudness` (mod.rs lines 56-60): process the
frame through the windower and push any emitted power frame into the
loudness aggregator. -/
noncomputable def GatedLoudness.push (gl : GatedLoudness) (input : RFrame) :
    GatedLoudness :=
  let r := gl.gatedPowers.process input
  match r.2 with
  | some gp => ⟨r.1, gl.loudness.push gp⟩
  | none => ⟨r.1, gl.loudness⟩

/-- `Calculator::calculate` for `GatedLoudness` (mod.rs lines 62-64). -/
noncomputable def GatedLoudness.calculate (gl : GatedLoudness) : Option ℝ :=
  gl.loudness.calculate

/-- C1.  The predefined gating constants as the code defines them: the
momentary gating is `(gate 400 ms, delta 100 ms)` as claimed, but the
short-term constants are swapped — the code sets `gate_len_ms = 1000` and
`delta_len_ms = 3000`, not `(3000, 1000)`; the momentary and short-term
constructors pass exactly these gatings to `GatedPowers::custom`. -/
theorem c1_predefined_gating_constants :
    MOMENTARY_GATING = ⟨400, 100⟩
    ∧ SHORTTERM_GATING = ⟨1000, 3000⟩
    ∧ SHORTTERM_GATING ≠ ⟨3000, 1000⟩
    ∧ (∀ rate : ℕ, GatedPowers.momentary rate = GatedPowers.custom MOMENTARY_GATING rate)
    ∧ (∀ rate : ℕ, GatedPowers.shortterm rate = GatedPowers.custom SHORTTERM_GATING rate) :=
  ⟨rfl, rfl, by decide, fun _ => rfl, fun _ => rfl⟩

/-- Biquad coefficients over `ℝ` for the runtime K-filter (the `Biquad` of
src/filter.rs, here with real-valued entries so that the transcendental
coefficient formulas can be written directly). -/
structure BiquadR where
  a1 : ℝ
  a2 : ℝ
  b0 : ℝ
  b1 : ℝ
  b2 : ℝ

/-- `Biquad::new(Kind::A, sample_rate)` (src/filter.rs lines 20-53) over `ℝ`. -/
noncomputable def biquadA (sampleRate : ℕ) : BiquadR :=
  let g : ℝ := 3.999843853973347
  let f0 : ℝ := 1681.974450955533
  let q : ℝ := 0.7071752369554196
  let k := Real.tan (Real.pi * f0 / sampleRate)
  let a0 := 1 + k / q + k * k
  let vh := (10 : ℝ) ^ (g / 20)
  let vb := vh ^ (0.4996667741545416 : ℝ)
  { a1 := 2 * (k * k - 1) / a0
    a2 := (1 - k / q + k * k) / a0
    b0 := (vh + vb * k / q + k * k) / a0
    b1 := 2 * (k * k - vh) / a0
    b2 := (vh - vb * k / q + k * k) / a0 }

/-- `Biquad::new(Kind::B, sample_rate)` (src/filter.rs lines 20-53) over `ℝ`. -/
noncomputable def biquadB (sampleRate : ℕ) : BiquadR :=
  let f0 : ℝ := 38.13547087602444
  let q : ℝ := 0.5003270373238773
  let k := Real.tan (Real.pi * f0 / sampleRate)
  let a0 := 1 + k / q + k * k
  { a1 := 2 * (k * k - 1) / a0
    a2 := (1 - k / q + k * k) / a0
    b0 := 1
    b1 := -2
    b2 := 1 }

/-- One biquad stage with per-channel state, over `ℝ` (the `Applicator` of
src/filter.rs lines 78-83, as owned by a pipeline layer). -/
structure ApplicatorR where
  biquad : BiquadR
  s1 : RFrame
  s2 : RFrame

/-- The Direct Form II transposed step of src/filter.rs lines 94-108, over `ℝ`. -/
noncomputable def ApplicatorR.apply (a : ApplicatorR) (input : RFrame) :
    ApplicatorR × RFrame :=
  let out : RFrame := fun c => a.s1 c + a.biquad.b0 * input c
  (⟨a.biquad,
    fun c => a.s2 c + a.biquad.b1 * input c - a.biquad.a1 * out c,
    fun c => a.biquad.b2 * input c - a.biquad.a2 * out c⟩, out)

/-- The K-weighting filter a pipeline layer owns.  `src/pipeline.rs` names it
`crate::filter::KWeightFilter`; the shipped `src/filter.rs` defines this
two-stage filter as `Filter` (lines 113-131). -/
structure KWeightFilter where
  passA : ApplicatorR
  passB : ApplicatorR

/-- A fresh K-filter at the given sample rate (src/filter.rs lines 121-126):
stage coefficients with all-zero state. -/
noncomputable def KWeightFilter.new (sampleRate : ℕ) : KWeightFilter :=
  ⟨⟨biquadA sampleRate, fun _ => 0, fun _ => 0⟩,
   ⟨biquadB sampleRate, fun _ => 0, fun _ => 0⟩⟩

/-- `Filter::apply` (src/filter.rs lines 128-131) over `ℝ`: stage A feeds
stage B. -/
noncomputable def KWeightFilter.process (f : KWeightFilter) (input : RFrame) :
    KWeightFilter × RFrame :=
  let ra := f.passA.apply input
  let rb := f.passB.apply ra.2
  (⟨ra.1, rb.1⟩, rb.2)

/-- `PipelineLayer` (src/pipeline.rs lines 58-66): a K-filter plus the
registered gated-loudness aggregators (the hash map is carried as an
association list). -/
structure PipelineLayer where
  kFilter : KWeightFilter
  momentaryGl : Option GatedLoudness
  shorttermGl : Option GatedLoudness
  customGlMap : List (Gating × GatedLoudness)

/-- `PipelineLayer::push` (src/pipeline.rs lines 85-94): filter the frame,
then feed the filtered frame to every registered aggregator. -/
noncomputable def PipelineLayer.push (l : PipelineLayer) (input : RFrame) :
    PipelineLayer :=
  let r := l.kFilter.process input
  ⟨r.1,
   l.momentaryGl.map fun gl => gl.push r.2,
   l.shorttermGl.map fun gl => gl.push r.2,
   l.customGlMap.map fun p => (p.1, p.2.push r.2)⟩

/-- `LayeredPipeline` (src/pipeline.rs lines 125-141): the shared
configuration plus the stack of layers, root first. -/
structure LayeredPipeline where
  sampleRate : ℕ
  gWeights : RFrame
  calcMomentary : Bool
  calcShortterm : Bool
  customGatings : List Gating
  layers : List PipelineLayer

/-- `LayeredPipeline::push_frame` (src/pipeline.rs lines 147-151): deliver
the frame to every layer of the stack. -/
noncomputable def LayeredPipeline.pushFrame (lp : LayeredPipeline) (frame : RFrame) :
    LayeredPipeline :=
  { lp with layers := lp.layers.map fun l => l.push frame }

/-- The source configuration at the bottom of a pipeline chain
(`Config`, src/pipeline.rs lines 14-20). -/
structure Config where
  sampleRate : ℕ
  gWeights : RFrame

/-- `Pipeline` (src/pipeline.rs lines 180-190): one layer's worth of state
plus its upstream — either a parent pipeline or the source configuration
(`Upstream`, lines 22-28). -/
inductive Pipeline where
  | mk (core : PipelineLayer) (upstream : Config ⊕ Pipeline)

/-- The pipeline's own layer state. -/
def Pipeline.core : Pipeline → PipelineLayer
  | .mk c _ => c

/-- `Calculator::push` for `Pipeline` (src/pipeline.rs lines 246-258): update
the pipeline's own K-filter and aggregators with the frame, then push the raw
input frame upstream. -/
noncomputable def Pipeline.push : Pipeline → RFrame → Pipeline
  | .mk core (Sum.inl cfg), input => .mk (core.push input) (Sum.inl cfg)
  | .mk core (Sum.inr parent), input => .mk (core.push input) (Sum.inr (parent.push input))

/-- The per-layer states along the upstream chain, own layer first. -/
def Pipeline.coreStates : Pipeline → List PipelineLayer
  | .mk core (Sum.inl _) => [core]
  | .mk core (Sum.inr parent) => core :: parent.coreStates

lemma Pipeline.coreStates_push :
    ∀ (p : Pipeline) (f : RFrame),
      (p.push f).coreStates = p.coreStates.map fun l => l.push f
  | .mk _ (Sum.inl _), _ => rfl
  | .mk core (Sum.inr parent), f => by
      simp only [Pipeline.push, Pipeline.coreStates, List.map_cons]
      rw [Pipeline.coreStates_push parent f]

/-- C8.  Pushing a frame sequence into a layered pipeline delivers every
frame to every layer, and every layer accumulates independently: after the
pushes, each layer's state (and likewise each level of a nested `Pipeline`
chain) equals the state it would have if it alone had been fed the same
frame sequence. -/
theorem c8_push_frame_broadcast (frames : List RFrame) (lp : LayeredPipeline)
    (p : Pipeline) :
    (frames.foldl LayeredPipeline.pushFrame lp).layers
      = lp.layers.map (fun l => frames.foldl PipelineLayer.push l)
    ∧ (frames.foldl Pipeline.push p).coreStates
      = p.coreStates.map (fun l => frames.foldl PipelineLayer.push l) := by
  constructor
  · induction frames generalizing lp with
    | nil => simp
    | cons f rest ih =>
        rw [List.foldl_cons, ih]
        simp only [LayeredPipeline.pushFrame, List.map_map]
        rfl
  · induction frames generalizing p with
    | nil => simp
    | cons f rest ih =>
        rw [List.foldl_cons, ih, Pipeline.coreStates_push, List.map_map]
        rfl

/-- `PipelineBuilder` (src/pipeline.rs lines 277-286): the configuration
being assembled (the hash set of custom gatings is carried as a list). -/
structure PipelineBuilder where
  sampleRate : ℕ
  gWeights : RFrame
  calcMomentary : Bool
  calcShortterm : Bool
  customGatings : List Gating

/-- `PipelineBuilder::new` (pipeline.rs lines 292-300). -/
def PipelineBuilder.new (sampleRate : ℕ) (g : RFrame) : PipelineBuilder :=
  ⟨sampleRate, g, false, false, []⟩

/-- `PipelineBuilder::momentary` (pipeline.rs lines 302-306). -/
def PipelineBuilder.momentary (b : PipelineBuilder) : PipelineBuilder :=
  { b with calcMomentary := true }

/-- `PipelineBuilder::shortterm` (pipeline.rs lines 308-312). -/
def PipelineBuilder.shortterm (b : PipelineBuilder) : PipelineBuilder :=
  { b with calcShortterm := true }

/-- `PipelineBuilder::custom` (pipeline.rs lines 314-318). -/
def PipelineBuilder.custom (b : PipelineBuilder) (gateLenMs deltaLenMs : ℕ) :
    PipelineBuilder :=
  { b with customGatings := b.customGatings ++ [⟨gateLenMs, deltaLenMs⟩] }

/-- The optional aggregator a boolean flag produces
(`flag.then(|| GatedLoudness::...)`), with the inner panic as `none`. -/
noncomputable def buildOptGl (flag : Bool) (mk : Option GatedLoudness) :
    Option (Option GatedLoudness) :=
  if flag then mk.map some else some none

/-- The custom-gating aggregators of `build`, one per registered gating, with
any inner panic as `none`. -/
noncomputable def buildCustoms (sampleRate : ℕ) (g : RFrame) :
    List Gating → Option (List (Gating × GatedLoudness))
  | [] => some []
  | gat :: rest =>
      match GatedLoudness.new sampleRate g gat, buildCustoms sampleRate g rest with
      | some gl, some tail => some ((gat, gl) :: tail)
      | _, _ => none

/-- `PipelineBuilder::build` (src/pipeline.rs lines 320-341).  The source
performs no validation and returns a `Pipeline` directly; the only failure
mode is the `assert!(frames_per_delta > 0)` panic inside
`GatedPowers::custom`, modelled as `none`. -/
noncomputable def PipelineBuilder.build (b : PipelineBuilder) : Option Pipeline :=
  match buildOptGl b.calcMomentary (GatedLoudness.momentary b.sampleRate b.gWeights),
        buildOptGl b.calcShortterm (GatedLoudness.shortterm b.sampleRate b.gWeights),
        buildCustoms b.sampleRate b.gWeights b.customGatings with
  | some m, some s, some customs =>
      some (.mk ⟨KWeightFilter.new b.sampleRate, m, s, customs⟩
        (Sum.inl ⟨b.sampleRate, b.gWeights⟩))
  | _, _, _ => none

/-- The gatings a builder has registered: the momentary and short-term
presets when their flags are set, plus the custom gatings. -/
def registeredGatings (b : PipelineBuilder) : List Gating :=
  (if b.calcMomentary then [MOMENTARY_GATING] else [])
  ++ (if b.calcShortterm then [SHORTTERM_GATING] else [])
  ++ b.customGatings

/-- The claim's notion of an invalid configuration (spec §7, error kind 1):
non-positive sample rate, no registered measurement, or a registered gating
with zero delta or a gate that is not a multiple of the delta. -/
def InvalidConfig (b : PipelineBuilder) : Prop :=
  b.sampleRate = 0
  ∨ registeredGatings b = []
  ∨ ∃ g ∈ registeredGatings b, g.deltaLenMs = 0 ∨ g.gateLenMs % g.deltaLenMs ≠ 0

/-- The builder of the C2 counterexample: a positive sample rate but no
registered measurement at all. -/
noncomputable def c2Builder : PipelineBuilder :=
  PipelineBuilder.new 48000 (fun _ => 1)

/-- C2 counterexample.  `c2Builder` is invalid in the claim's sense (it
registers no measurement), yet `build()` succeeds and hands back a pipeline:
the builder does not report errors synchronously, because it performs no
validation at all. -/
theorem c2_build_counterexample :
    InvalidConfig c2Builder ∧ (PipelineBuilder.build c2Builder).isSome = true :=
  ⟨Or.inr (Or.inl rfl), rfl⟩

lemma gatedLoudness_new_isSome (sampleRate : ℕ) (g : RFrame) (gating : Gating) :
    (GatedLoudness.new sampleRate g gating).isSome
      = true ↔ Util.msToSamples gating.deltaLenMs sampleRate ≠ 0 := by
  rw [GatedLoudness.new, GatedPowers.custom]
  rcases eq_or_ne (Util.msToSamples gating.deltaLenMs sampleRate) 0 with h | h
  · simp [h]
  · simp [h]

lemma buildCustoms_isSome (sampleRate : ℕ) (g : RFrame) (l : List Gating) :
    (buildCustoms sampleRate g l).isSome = true
      ↔ ∀ gat ∈ l, Util.msToSamples gat.deltaLenMs sampleRate ≠ 0 := by
  induction l with
  | nil => simp [buildCustoms]
  | cons gat rest ih =>
      rw [buildCustoms]
      rcases hgl : GatedLoudness.new sampleRate g gat with _ | gl
      · have h0 : ¬ Util.msToSamples gat.deltaLenMs sampleRate ≠ 0 := by
          intro h
          have := (gatedLoudness_new_isSome sampleRate g gat).2 h
          rw [hgl] at this
          exact absurd this (by simp)
        simp [h0]
      · have h1 : Util.msToSamples gat.deltaLenMs sampleRate ≠ 0 := by
          rw [← gatedLoudness_new_isSome sampleRate g gat, hgl]
          rfl
        rcases hrest : buildCustoms sampleRate g rest with _ | tail
        · rw [hrest] at ih
          simp only [Option.isSome_none, Bool.false_eq_true, false_iff] at ih
          push_neg at ih
          obtain ⟨w, hw, hw0⟩ := ih
          constructor
          · intro h
            exact absurd h (by simp)
          · intro hall
            exact absurd (hall w (List.mem_cons_of_mem _ hw)) (by simpa using hw0)
        · rw [hrest] at ih
          simp only [Option.isSome_some, true_iff] at ih
          simp only [Option.isSome_some, true_iff]
          intro gat' hmem
          rcases List.mem_cons.1 hmem with hEq | hmem'
          · rw [hEq]; exact h1
          · exact ih gat' hmem'

lemma buildOptGl_isSome (flag : Bool) (mk : Option GatedLoudness) :
    (buildOptGl flag mk).isSome = true ↔ (flag = true → mk.isSome = true) := by
  cases flag
  · simp [buildOptGl]
  · cases mk <;> simp [buildOptGl]

/-- C2 (amended).  `build()` performs no validation: it produces a pipeline
for every sample rate (including 0), every set of registered measurements
(including none), and every gating divisibility; its only failure is the
`assert!(frames_per_delta > 0)` panic inside `GatedPowers::custom`, so a
pipeline is produced exactly when every registered gating's delta length
rounds to a positive number of frames at the configured sample rate. -/
theorem c2_build_succeeds_iff (b : PipelineBuilder) :
    (PipelineBuilder.build b).isSome = true
      ↔ ∀ g ∈ registeredGatings b, Util.msToSamples g.deltaLenMs b.sampleRate ≠ 0 := by
  have hm := buildOptGl_isSome b.calcMomentary
    (GatedLoudness.momentary b.sampleRate b.gWeights)
  have hs := buildOptGl_isSome b.calcShortterm
    (GatedLoudness.shortterm b.sampleRate b.gWeights)
  have hc := buildCustoms_isSome b.sampleRate b.gWeights b.customGatings
  rw [PipelineBuilder.build]
  constructor
  · intro h
    rcases h1 : buildOptGl b.calcMomentary (GatedLoudness.momentary b.sampleRate b.gWeights)
      with _ | m
    · rw [h1] at h; simp at h
    rcases h2 : buildOptGl b.calcShortterm (GatedLoudness.shortterm b.sampleRate b.gWeights)
      with _ | s
    · rw [h1, h2] at h; simp at h
    rcases h3 : buildCustoms b.sampleRate b.gWeights b.customGatings with _ | customs
    · rw [h1, h2, h3] at h; simp at h
    intro g hg
    rw [registeredGatings] at hg
    simp only [List.mem_append, List.mem_ite_nil_right] at hg
    rcases hg with (⟨hflag, hgm⟩ | ⟨hflag, hgs⟩) | hgc
    · have := (hm.1 (by rw [h1]; rfl)) hflag
      rw [GatedLoudness.momentary] at this
      rw [List.mem_singleton.1 hgm]
      exact (gatedLoudness_new_isSome _ _ _).1 this
    · have := (hs.1 (by rw [h2]; rfl)) hflag
      rw [GatedLoudness.shortterm] at this
      rw [List.mem_singleton.1 hgs]
      exact (gatedLoudness_new_isSome _ _ _).1 this
    · exact (hc.1 (by rw [h3]; rfl)) g hgc
  · intro hall
    have h1 : (buildOptGl b.calcMomentary
        (GatedLoudness.momentary b.sampleRate b.gWeights)).isSome = true := by
      rw [hm]
      intro hflag
      rw [GatedLoudness.momentary, gatedLoudness_new_isSome]
      exact hall MOMENTARY_GATING (by simp [registeredGatings, hflag])
    have h2 : (buildOptGl b.calcShortterm
        (GatedLoudness.shortterm b.sampleRate b.gWeights)).isSome = true := by
      rw [hs]
      intro hflag
      rw [GatedLoudness.shortterm, gatedLoudness_new_isSome]
      exact hall SHORTTERM_GATING (by simp [registeredGatings, hflag])
    have h3 : (buildCustoms b.sampleRate b.gWeights b.customGatings).isSome = true := by
      rw [hc]
      intro gat hmem
      exact hall gat (by simp [registeredGatings, hmem])
    rcases hx1 : buildOptGl b.calcMomentary (GatedLoudness.momentary b.sampleRate b.gWeights)
      with _ | m
    · rw [hx1] at h1; simp at h1
    rcases hx2 : buildOptGl b.calcShortterm (GatedLoudness.shortterm b.sampleRate b.gWeights)
      with _ | s
    · rw [hx2] at h2; simp at h2
    rcases hx3 : buildCustoms b.sampleRate b.gWeights b.customGatings with _ | customs
    · rw [hx3] at h3; simp at h3
    rfl

end Regulus
